import Mathlib

set_option maxRecDepth 100000

/-!
Verification of the a2fs Apple DOS 3.3 disk-image decoder.

The repository contains two parallel decoder implementations:
* `src/a2fs/dos33fs.py` — class `AppleDOS33Disk` (`_load_image`, `_get_sector`,
  `_read_catalog`, `_read_tslist`, `read_file`);
* `src/a2fs/main.py` — class `AppleDOSFS` (`_read_sector`, `_parse_catalog`,
  `_read_file_data`).

Both are shallowly embedded below.  Python `while` loops become fuel-indexed
recursion (`none` = fuel exhausted, i.e. the loop has not terminated within
the given number of iterations).  Python exceptions become an explicit error
type `PErr`.  Byte strings become `List Nat`; a whole disk image becomes a
function `Nat → Nat` from byte offset to byte value (the loaded image of
`dos33fs.py` is checked to be exactly 143360 bytes, and every in-range sector
access stays below that bound).  Python `dict` (insertion ordered, assignment
replaces the value in place) becomes an association list with `pyDictInsert`.
-/

/-- Errors raised by the Python code: `ValueError` from `_get_sector`
(separated into the track and the sector check), `ValueError` from
`_load_image`, `IndexError` from indexing a too-short `bytes`,
`struct.error` from `struct.unpack`, and `FileNotFoundError`. -/
inductive PErr where
  | invalidTrack
  | invalidSector
  | invalidSize
  | indexError
  | structError
  | fileNotFound
  deriving DecidableEq, Repr

/-- Python `d[k] = v` on an insertion-ordered dict represented as an
association list: replace the value of an existing key in place, else
append the new pair at the end. -/
def pyDictInsert {α : Type} (k : String) (v : α) : List (String × α) → List (String × α)
  | [] => [(k, v)]
  | (k₀, v₀) :: rest =>
      if k₀ = k then (k₀, v) :: rest else (k₀, v₀) :: pyDictInsert k v rest

/-- Python `d.get(k)` / `k in d`: first (and, as built, only) binding of `k`. -/
def pyLookup {α : Type} (k : String) : List (String × α) → Option α
  | [] => none
  | (k₀, v₀) :: rest => if k₀ = k then some v₀ else pyLookup k rest

/-- Python `b[i]` on a bytes object: the byte, or `IndexError` when out of
range (the code only ever uses non-negative literal indices). -/
def pyIndex (l : List Nat) (i : Nat) : Except PErr Nat :=
  if h : i < l.length then .ok l[i] else .error .indexError

/-- Python `str.isspace` restricted to the ASCII range that `chr(b & 0x7F)`
can produce. -/
def pyIsSpace (c : Char) : Bool :=
  c = ' ' || c = '\t' || c = '\n' || c = '\x0b' || c = '\x0c' || c = '\r' ||
  c = '\x1c' || c = '\x1d' || c = '\x1e' || c = '\x1f'

/-- Python `str.strip()`: drop leading and trailing whitespace. -/
def pyStrip (l : List Char) : List Char :=
  ((l.dropWhile pyIsSpace).reverse.dropWhile pyIsSpace).reverse

/-- Name decoding of `dos33fs.py` line 94:
`''.join(chr(b & 0x7F) for b in filename_bytes).strip()` — note that zero
bytes are kept (they become `'\x00'` characters, which `strip` does not
remove). -/
def dosDecodeName (raw : List Nat) : String :=
  String.mk (pyStrip (raw.map fun b => Char.ofNat (b % 128)))

/-- Name decoding of `main.py` line 56:
`"".join([chr(b & 0x7F) for b in filename_raw if b != 0]).strip()` — zero
bytes are dropped before masking. -/
def mainDecodeName (raw : List Nat) : String :=
  String.mk (pyStrip (((raw.filter fun b => b ≠ 0)).map fun b => Char.ofNat (b % 128)))

/-- `AppleDOS33Disk.FILE_TYPES.get(file_type, '?')`. -/
def fileTypesGet (t : Nat) : String :=
  if t = 0 then "T" else if t = 1 then "I" else if t = 2 then "A"
  else if t = 4 then "B" else if t = 8 then "S" else if t = 16 then "R"
  else if t = 32 then "a" else if t = 64 then "b" else "?"

/-- The dict value built by `AppleDOS33Disk._read_catalog` for one file. -/
structure DosFile where
  ftype : String
  track : Nat
  sector : Nat
  length : Nat
  typeCode : Nat
  deriving DecidableEq, Repr

/-- The dict value built by `AppleDOSFS._parse_catalog` for one file. -/
structure MainFile where
  ftype : Nat
  lenSectors : Nat
  tsTrack : Nat
  tsSector : Nat
  deriving DecidableEq, Repr

/-- A disk image as a function from byte offset to byte value. -/
abbrev Image : Type := Nat → Nat

/-- A disk-image file on disk: its length and its bytes, as read by
`main.py` (which never validates the length). -/
structure ByteFile where
  len : Nat
  byte : Nat → Nat

/-- `AppleDOS33Disk` class constants. -/
def SECTOR_SIZE : Nat := 256

def SECTORS_PER_TRACK : Nat := 16

def TRACKS : Nat := 35

/-- The 256-byte slice `image_data[off : off + 256]` (only taken at offsets
where the 143360-byte image provides a full sector). -/
def sectorBytes (img : Image) (off : Nat) : List Nat :=
  (List.range SECTOR_SIZE).map fun i => img (off + i)

/-- `AppleDOS33Disk._get_sector` (dos33fs.py lines 51-59): validate the
track, validate the sector, then slice 256 bytes at
`(track * 16 + sector) * 256`.  Arguments are integers, as in Python, so
that the `track < 0` / `sector < 0` checks are meaningful. -/
def getSector (img : Image) (track sector : Int) : Except PErr (List Nat) :=
  if track < 0 ∨ (TRACKS : Int) ≤ track then .error .invalidTrack
  else if sector < 0 ∨ (SECTORS_PER_TRACK : Int) ≤ sector then .error .invalidSector
  else .ok (sectorBytes img ((track * 16 + sector) * 256).toNat)

/-- `AppleDOSFS._read_sector` (main.py lines 27-30): no validation; seek to
`(track * 16 + sector) * 256` and read up to 256 bytes, short or empty when
the file ends first. -/
def mainRead (bf : ByteFile) (track sector : Nat) : List Nat :=
  (List.range (min 256 (bf.len - (track * 16 + sector) * 256))).map
    fun i => bf.byte ((track * 16 + sector) * 256 + i)

/-- `struct.unpack('<H', b)[0]`: little-endian unsigned 16-bit value;
`struct.error` unless exactly two bytes are supplied. -/
def pyUnpackH (l : List Nat) : Except PErr Nat :=
  if l.length = 2 then .ok (l.getD 0 0 + 256 * l.getD 1 0) else .error .structError

/-- A directory of decoded files, as built by `dos33fs.py`. -/
abbrev DosDir : Type := List (String × DosFile)

/-- A directory of decoded files, as built by `main.py`. -/
abbrev MainDir : Type := List (String × MainFile)

/-- One iteration body of the entry loop of `AppleDOS33Disk._read_catalog`
(dos33fs.py lines 77-106), for slot `i` of a catalog sector: `none` when the
slot is skipped (`entry[0] == 0`, or the decoded name is empty), otherwise
the name together with the dict value that is stored for it. -/
def dosParseSlot (sd : List Nat) (i : Nat) : Option (String × DosFile) :=
  let offset := 11 + i * 35
  let entry := (sd.drop offset).take 35
  if entry.getD 0 0 = 0 then none
  else
    let fileTrack := entry.getD 0 0
    let fileSector := entry.getD 1 0
    let fileType := entry.getD 2 0
    let filename := dosDecodeName ((entry.drop 3).take 30)
    if filename = "" then none
    else
      let length := entry.getD 33 0 ||| (entry.getD 34 0 <<< 8)
      some (filename, ⟨fileTypesGet fileType, fileTrack, fileSector, length, fileType⟩)

/-- The `for i in range(7)` entry loop of `AppleDOS33Disk._read_catalog`,
threading the `files` dict. -/
def dosProcessSector (sd : List Nat) (files : DosDir) : DosDir :=
  (List.range 7).foldl
    (fun fs i =>
      match dosParseSlot sd i with
      | none => fs
      | some (k, v) => pyDictInsert k v fs)
    files

/-- The `while track != 0` loop of `AppleDOS33Disk._read_catalog`
(dos33fs.py lines 61-114), with fuel: `none` means the loop has not finished
within `fuel` iterations. -/
def dosGo (img : Image) : Nat → Nat → Nat → DosDir → Option (Except PErr DosDir)
  | _, 0, _, files => some (.ok files)
  | 0, _ + 1, _, _ => none
  | fuel + 1, track + 1, sector, files =>
    match getSector img (track + 1 : Nat) (sector : Nat) with
    | .error e => some (.error e)
    | .ok sd =>
      let nextTrack := sd.getD 1 0
      let nextSector := sd.getD 2 0
      let files' := dosProcessSector sd files
      if nextTrack = 0 then some (.ok files')
      else dosGo img fuel nextTrack nextSector files'

/-- `AppleDOS33Disk._read_catalog`: the walk starts at the fixed class
constants `CATALOG_TRACK = 17`, `CATALOG_SECTOR = 15` with an empty dict. -/
def dosCatalogFuel (img : Image) (fuel : Nat) : Option (Except PErr DosDir) :=
  dosGo img fuel 17 15 []

/-- The `for i in range(122)` pair loop of `AppleDOS33Disk._read_tslist`:
collect `(t, s)` pairs at offsets `12 + 2 i`, stopping at the first pair
whose track byte is zero.  The first argument counts the remaining loop
iterations (initially 122). -/
def tsPairsGo (td : List Nat) : Nat → Nat → List (Nat × Nat)
  | 0, _ => []
  | k + 1, i =>
    let t := td.getD (12 + 2 * i) 0
    if t = 0 then []
    else (t, td.getD (12 + 2 * i + 1) 0) :: tsPairsGo td k (i + 1)

/-- All `(track, sector)` pairs collected from one T/S list sector. -/
def tsPairs (td : List Nat) : List (Nat × Nat) :=
  tsPairsGo td 122 0

/-- The `while track != 0` loop of `AppleDOS33Disk._read_tslist`
(dos33fs.py lines 116-147), with fuel. -/
def tsGo (img : Image) : Nat → Nat → Nat → List (Nat × Nat) →
    Option (Except PErr (List (Nat × Nat)))
  | _, 0, _, secs => some (.ok secs)
  | 0, _ + 1, _, _ => none
  | fuel + 1, track + 1, sector, secs =>
    match getSector img (track + 1 : Nat) (sector : Nat) with
    | .error e => some (.error e)
    | .ok td =>
      let nextTrack := td.getD 1 0
      let nextSector := td.getD 2 0
      let secs' := secs ++ tsPairs td
      if nextTrack = 0 then some (.ok secs')
      else tsGo img fuel nextTrack nextSector secs'

/-- `AppleDOS33Disk._read_tslist(track, sector)`. -/
def dosTslistFuel (img : Image) (fuel track sector : Nat) :
    Option (Except PErr (List (Nat × Nat))) :=
  tsGo img fuel track sector []

/-- The data-concatenation loop of `AppleDOS33Disk.read_file`
(dos33fs.py lines 161-164): read every listed sector and append, where a
`ValueError` from `_get_sector` aborts the whole read. -/
def readSectors (img : Image) (secs : List (Nat × Nat)) : Except PErr (List Nat) :=
  secs.foldl
    (fun acc p =>
      match acc with
      | .error e => .error e
      | .ok d =>
        match getSector img (p.1 : Nat) (p.2 : Nat) with
        | .error e => .error e
        | .ok sd => .ok (d ++ sd))
    (.ok [])

/-- `AppleDOS33Disk.read_file` (dos33fs.py lines 149-166), against the
catalog built by `_read_catalog` under the same fuel: `FileNotFoundError`
when the name is not in the files dict, otherwise walk the T/S list from the
entry's first chain address and concatenate the data sectors. -/
def dosReadFile (img : Image) (fuel : Nat) (filename : String) :
    Option (Except PErr (List Nat)) :=
  match dosCatalogFuel img fuel with
  | none => none
  | some (.error e) => some (.error e)
  | some (.ok files) =>
    match pyLookup filename files with
    | none => some (.error .fileNotFound)
    | some info =>
      match dosTslistFuel img fuel info.track info.sector with
      | none => none
      | some (.error e) => some (.error e)
      | some (.ok secs) => some (readSectors img secs)

/-- One iteration body of the entry loop of `AppleDOSFS._parse_catalog`
(main.py lines 47-68), for slot `i`: `ok none` when the slot is skipped
(`ts_track == 0 or ts_track == 0xFF`); an error when one of the byte
accesses raises; otherwise the name and the dict value.  Accesses happen in
source order: `entry[0]`, the name slice, `entry[2]`, `entry[33:35]`,
`entry[1]`. -/
def mainParseSlot (sd : List Nat) (i : Nat) : Except PErr (Option (String × MainFile)) :=
  let offset := 11 + i * 35
  let entry := (sd.drop offset).take 35
  match pyIndex entry 0 with
  | .error e => .error e
  | .ok tsTrack =>
    if tsTrack = 0 ∨ tsTrack = 255 then .ok none
    else
      let filename := mainDecodeName ((entry.drop 3).take 30)
      match pyIndex entry 2 with
      | .error e => .error e
      | .ok ft =>
        let fileType := ft % 128
        match pyUnpackH ((entry.drop 33).take 2) with
        | .error e => .error e
        | .ok fileLen =>
          match pyIndex entry 1 with
          | .error e => .error e
          | .ok tsSector => .ok (some (filename, ⟨fileType, fileLen, tsTrack, tsSector⟩))

/-- The `for i in range(7)` entry loop of `AppleDOSFS._parse_catalog`; a
raised exception aborts the whole parse. -/
def mainProcessSector (sd : List Nat) (files : MainDir) : Except PErr MainDir :=
  (List.range 7).foldl
    (fun acc i =>
      match acc with
      | .error e => .error e
      | .ok fs =>
        match mainParseSlot sd i with
        | .error e => .error e
        | .ok none => .ok fs
        | .ok (some (k, v)) => .ok (pyDictInsert k v fs))
    (.ok files)

/-- The `while current_track != 0` loop of `AppleDOSFS._parse_catalog`
(main.py lines 41-70), with fuel.  The next-link bytes are read before the
entries, and the loop reassigns and retests rather than breaking, exactly as
the source does. -/
def mainGo (bf : ByteFile) : Nat → Nat → Nat → MainDir → Option (Except PErr MainDir)
  | _, 0, _, files => some (.ok files)
  | 0, _ + 1, _, _ => none
  | fuel + 1, track + 1, sector, files =>
    let sd := mainRead bf (track + 1) sector
    match pyIndex sd 1 with
    | .error e => some (.error e)
    | .ok nextTrack =>
      match pyIndex sd 2 with
      | .error e => some (.error e)
      | .ok nextSector =>
        match mainProcessSector sd files with
        | .error e => some (.error e)
        | .ok files' => mainGo bf fuel nextTrack nextSector files'

/-- `AppleDOSFS._parse_catalog` (main.py lines 32-70): read the VTOC at
(17, 0), take its bytes 1 and 2 as the starting catalog address — with no
range check and no fallback — and walk from there. -/
def mainCatalogFuel (bf : ByteFile) (fuel : Nat) : Option (Except PErr MainDir) :=
  let vtoc := mainRead bf 17 0
  match pyIndex vtoc 1 with
  | .error e => some (.error e)
  | .ok catalogTrack =>
    match pyIndex vtoc 2 with
    | .error e => some (.error e)
    | .ok catalogSector => mainGo bf fuel catalogTrack catalogSector []

/-- `AppleDOS33Disk.__init__` + `_load_image` (dos33fs.py lines 37-49):
construction loads the image, fails with `ValueError` ("Invalid disk image
size") unless it is exactly `SECTOR_SIZE * SECTORS_PER_TRACK * TRACKS`
bytes, and then builds the catalog. -/
def dosInit (bf : ByteFile) (fuel : Nat) : Option (Except PErr DosDir) :=
  if bf.len ≠ SECTOR_SIZE * SECTORS_PER_TRACK * TRACKS then some (.error .invalidSize)
  else dosCatalogFuel bf.byte fuel

/-- A 143360-byte image whose first catalog sector (17, 15) has next-link
bytes pointing back to (17, 15) itself: byte 73472 + 1 = 17 and
byte 73472 + 2 = 15.  All catalog entry slots are empty. -/
def cycImg : Image := fun n => if n = 73473 then 17 else if n = 73474 then 15 else 0

/-- An image whose T/S list sector (1, 0) (byte offset 4096) has next-link
track byte 1 and next-link sector byte 0, i.e. links back to itself, and no
data pairs. -/
def cycImg2 : Image := fun n => if n = 4097 then 1 else 0

/-- An image whose VTOC (17, 0) records catalog address (17, 15) and whose
catalog sector (17, 15) holds a single slot with first byte 0xFF (deleted
entry), name "A" (0xC1 then 0xA0 padding), and sector count 1. -/
def ffImg : Image := fun n =>
  if n = 69633 then 17 else if n = 69634 then 15
  else if n = 73483 then 255
  else if n = 73486 then 193
  else if 73487 ≤ n ∧ n ≤ 73515 then 160
  else if n = 73516 then 1 else 0

/-- The catalog sector (17, 15) of `ffImg`, as `_get_sector` returns it. -/
def ffSd : List Nat := sectorBytes ffImg 73472

/-- The 30-byte raw name field of the spec's name-decoding example:
"HELLO" with high bits set (0xC8 0xC5 0xCC 0xCC 0xCF), then 24 bytes of
0xA0 padding, then a zero byte. -/
def helloRaw : List Nat := [200, 197, 204, 204, 207] ++ List.replicate 24 160 ++ [0]

/-- An image whose catalog sector (17, 15) holds one slot with first
chain-sector track 1, sector 0, raw type byte 0x84 (locked binary file),
name "A", and sector-count bytes 2 and 1 (little-endian 258). -/
def img4 : Image := fun n =>
  if n = 73483 then 1 else if n = 73485 then 132
  else if n = 73486 then 193
  else if 73487 ≤ n ∧ n ≤ 73515 then 160
  else if n = 73516 then 2 else if n = 73517 then 1 else 0

/-- An image whose VTOC (17, 0) records the in-range catalog address
(17, 14); the catalog sector (17, 14) (byte offset 73216) holds one valid
entry named "A" with chain address (1, 1), type 4 and sector count 1, while
the default catalog sector (17, 15) is entirely zero. -/
def imgA : Image := fun n =>
  if n = 69633 then 17 else if n = 69634 then 14
  else if n = 73227 then 1 else if n = 73228 then 1 else if n = 73229 then 4
  else if n = 73230 then 193
  else if 73231 ≤ n ∧ n ≤ 73259 then 160
  else if n = 73260 then 1 else 0

/-- An image whose VTOC (17, 0) records the out-of-range catalog address
(200, 0), while the default catalog sector (17, 15) holds one valid entry
named "C" with chain address (1, 1), type 4 and sector count 1. -/
def imgB : Image := fun n =>
  if n = 69633 then 200
  else if n = 73483 then 1 else if n = 73484 then 1 else if n = 73485 then 4
  else if n = 73486 then 195
  else if 73487 ≤ n ∧ n ≤ 73515 then 160
  else if n = 73516 then 1 else 0

/-- An all-zero disk-image file of the correct 143360-byte length. -/
def bf0 : ByteFile := ⟨143360, fun _ => 0⟩

/-- A 143360-byte image file whose catalog sector (17, 15) has next-link
track byte 200 — an out-of-range link. -/
def badLink : ByteFile := ⟨143360, fun n => if n = 73473 then 200 else 0⟩

/-- An image whose catalog sector (17, 15) holds two valid entries that both
decode to the name "A": slot 0 with chain address (1, 0) and sector count 1,
slot 1 (entry offset 46, byte offset 73518) with chain address (2, 0) and
sector count 2. -/
def imgDup : Image := fun n =>
  if n = 73483 then 1 else if n = 73485 then 4
  else if n = 73486 then 193
  else if 73487 ≤ n ∧ n ≤ 73515 then 160
  else if n = 73516 then 1
  else if n = 73518 then 2 else if n = 73520 then 4
  else if n = 73521 then 193
  else if 73522 ≤ n ∧ n ≤ 73550 then 160
  else if n = 73551 then 2 else 0

/-- An image whose catalog sector (17, 15) holds one valid entry named
"HELLO" (0xC8 0xC5 0xCC 0xCC 0xCF then 0xA0 padding) with chain address
(1, 2), type 4 and sector count 3. -/
def imgH : Image := fun n =>
  if n = 73483 then 1 else if n = 73484 then 2 else if n = 73485 then 4
  else if n = 73486 then 200 else if n = 73487 then 197 else if n = 73488 then 204
  else if n = 73489 then 204 else if n = 73490 then 207
  else if 73491 ≤ n ∧ n ≤ 73515 then 160
  else if n = 73516 then 3 else 0

/-- An image with one catalog entry "A" whose T/S list at (1, 0) terminates
(next-link track 0) and lists the single out-of-range data pair (200, 0)
(bytes 4108 and 4109). -/
def imgC : Image := fun n =>
  if n = 73483 then 1 else if n = 73485 then 4
  else if n = 73486 then 193
  else if 73487 ≤ n ∧ n ≤ 73515 then 160
  else if n = 73516 then 1
  else if n = 4108 then 200 else 0

/-- An image with one catalog entry "A" whose T/S list at (1, 0) terminates
and lists the single in-range data pair (2, 3). -/
def imgD : Image := fun n =>
  if n = 73483 then 1 else if n = 73485 then 4
  else if n = 73486 then 193
  else if 73487 ≤ n ∧ n ≤ 73515 then 160
  else if n = 73516 then 1
  else if n = 4108 then 2 else if n = 4109 then 3 else 0

/-- The valid (non-skipped) entries of one catalog sector in slot order
0 through 6 — the specification-side companion of `dosProcessSector`. -/
def dosSectorEntries (sd : List Nat) : List (String × DosFile) :=
  (List.range 7).filterMap (dosParseSlot sd)

/-- Fold a list of (name, metadata) pairs into a Python dict, in order. -/
def foldInserts (files : DosDir) (l : List (String × DosFile)) : DosDir :=
  l.foldl (fun fs kv => pyDictInsert kv.1 kv.2 fs) files

/-- The same catalog walk as `dosGo`, but accumulating the valid entries in
traversal order (sector by sector along the next links, slots 0 through 6
within a sector) instead of folding them into a dict. -/
def dosGoE (img : Image) : Nat → Nat → Nat → List (String × DosFile) →
    Option (Except PErr (List (String × DosFile)))
  | _, 0, _, acc => some (.ok acc)
  | 0, _ + 1, _, _ => none
  | fuel + 1, track + 1, sector, acc =>
    match getSector img (track + 1 : Nat) (sector : Nat) with
    | .error e => some (.error e)
    | .ok sd =>
      let nextTrack := sd.getD 1 0
      let nextSector := sd.getD 2 0
      let acc' := acc ++ dosSectorEntries sd
      if nextTrack = 0 then some (.ok acc')
      else dosGoE img fuel nextTrack nextSector acc'

/-- The catalog-entry sequence of a disk image in traversal order, starting
from the fixed catalog address (17, 15) as `_read_catalog` does. -/
def dosEntriesFuel (img : Image) (fuel : Nat) :
    Option (Except PErr (List (String × DosFile))) :=
  dosGoE img fuel 17 15 []

/-- The all-zero disk image. -/
def img0 : Image := fun _ => 0

/-- A 100-byte (too short) disk-image file. -/
def bfShort : ByteFile := ⟨100, fun _ => 0⟩

/-- The catalog sector (17, 15) of `imgH`, as `_get_sector` returns it. -/
def sdH : List Nat := sectorBytes imgH 73472

theorem pyLookup_insert {α : Type} (k k' : String) (v : α) (l : List (String × α)) :
    pyLookup k (pyDictInsert k' v l) = if k = k' then some v else pyLookup k l := by
  induction l with
  | nil =>
    by_cases h : k = k'
    · subst h
      simp [pyDictInsert, pyLookup]
    · simp [pyDictInsert, pyLookup, h, Ne.symm h]
  | cons p rest ih =>
    obtain ⟨a, b⟩ := p
    by_cases ha : a = k'
    · subst ha
      by_cases hk : a = k
      · subst hk
        simp [pyDictInsert, pyLookup]
      · simp [pyDictInsert, pyLookup, hk, Ne.symm hk]
    · by_cases hk : a = k
      · subst hk
        simp [pyDictInsert, pyLookup, ha]
      · simp [pyDictInsert, pyLookup, ha, hk, ih]

theorem getLast?_cons_eq {α : Type} (a : α) (l : List α) :
    (a :: l).getLast? = match l.getLast? with | some x => some x | none => some a := by
  induction l generalizing a with
  | nil => simp
  | cons b t ih =>
    rw [List.getLast?_cons_cons, ih b]
    cases t.getLast? <;> simp [List.getLast?_cons_cons, ih]

theorem pyLookup_foldInserts (k : String) (l : List (String × DosFile)) (init : DosDir) :
    pyLookup k (foldInserts init l) =
      match (l.filter fun p => p.1 = k).getLast? with
      | some p => some p.2
      | none => pyLookup k init := by
  induction l generalizing init with
  | nil => simp [foldInserts]
  | cons p t ih =>
    obtain ⟨a, b⟩ := p
    have hfold : foldInserts init ((a, b) :: t) = foldInserts (pyDictInsert a b init) t := rfl
    rw [hfold, ih, pyLookup_insert]
    by_cases hak : a = k
    · subst hak
      rw [List.filter_cons_of_pos (by simp), getLast?_cons_eq]
      cases h : (t.filter fun p => p.1 = a).getLast? <;> simp [h]
    · rw [List.filter_cons_of_neg (by simp [hak])]
      cases h : (t.filter fun p => p.1 = k).getLast? <;> simp [h, Ne.symm hak]

theorem foldl_filterMap_insert (sd : List Nat) (l : List Nat) (files : DosDir) :
    l.foldl
      (fun fs i =>
        match dosParseSlot sd i with
        | none => fs
        | some (k, v) => pyDictInsert k v fs)
      files
      = foldInserts files (l.filterMap (dosParseSlot sd)) := by
  induction l generalizing files with
  | nil => rfl
  | cons i t ih =>
    cases h : dosParseSlot sd i with
    | none => simp [List.filterMap_cons, h, ih, List.foldl_cons]
    | some kv =>
      obtain ⟨kk, v⟩ := kv
      simp only [List.foldl_cons, List.filterMap_cons, h, ih]
      rfl

theorem dosProcessSector_eq (sd : List Nat) (files : DosDir) :
    dosProcessSector sd files = foldInserts files (dosSectorEntries sd) :=
  foldl_filterMap_insert sd (List.range 7) files

theorem dosGoE_acc (img : Image) (fuel : Nat) :
    ∀ t s acc, dosGoE img fuel t s acc =
      Option.map (Except.map fun l => acc ++ l) (dosGoE img fuel t s []) := by
  induction fuel with
  | zero =>
    intro t s acc
    cases t with
    | zero => simp [dosGoE, Except.map]
    | succ t => rfl
  | succ n ih =>
    intro t s acc
    cases t with
    | zero => simp [dosGoE, Except.map]
    | succ t =>
      simp only [dosGoE]
      cases hgs : getSector img (((t + 1 : Nat)) : Int) ((s : Nat) : Int) with
      | error e => rfl
      | ok sd =>
        dsimp only
        by_cases h0 : sd.getD 1 0 = 0
        · rw [if_pos h0, if_pos h0]
          simp [Except.map]
        · rw [if_neg h0, if_neg h0, List.nil_append,
            ih (sd.getD 1 0) (sd.getD 2 0) (acc ++ dosSectorEntries sd),
            ih (sd.getD 1 0) (sd.getD 2 0) (dosSectorEntries sd)]
          cases hX : dosGoE img n (sd.getD 1 0) (sd.getD 2 0) [] with
          | none => rfl
          | some e => cases e <;> simp [Except.map, List.append_assoc]

theorem dosGo_eq_goE (img : Image) (fuel : Nat) :
    ∀ t s files, dosGo img fuel t s files =
      Option.map (Except.map (foldInserts files)) (dosGoE img fuel t s []) := by
  induction fuel with
  | zero =>
    intro t s files
    cases t with
    | zero => simp [dosGo, dosGoE, Except.map, foldInserts]
    | succ t => rfl
  | succ n ih =>
    intro t s files
    cases t with
    | zero => simp [dosGo, dosGoE, Except.map, foldInserts]
    | succ t =>
      simp only [dosGo, dosGoE]
      cases hgs : getSector img (((t + 1 : Nat)) : Int) ((s : Nat) : Int) with
      | error e => rfl
      | ok sd =>
        dsimp only
        by_cases h0 : sd.getD 1 0 = 0
        · rw [if_pos h0, if_pos h0]
          simp [Except.map, dosProcessSector_eq]
        · rw [if_neg h0, if_neg h0, List.nil_append, dosProcessSector_eq,
            ih (sd.getD 1 0) (sd.getD 2 0) (foldInserts files (dosSectorEntries sd)),
            dosGoE_acc img n (sd.getD 1 0) (sd.getD 2 0) (dosSectorEntries sd)]
          cases hX : dosGoE img n (sd.getD 1 0) (sd.getD 2 0) [] with
          | none => rfl
          | some e =>
            cases e <;> simp [Except.map, foldInserts, List.foldl_append]

theorem byte_lor (a b : Nat) (ha : a < 256) : a ||| (b <<< 8) = a + 256 * b := by
  have hsh : b <<< 8 = 256 * b := by rw [Nat.shiftLeft_eq]; ring
  apply Nat.eq_of_testBit_eq
  intro i
  rw [Nat.testBit_lor, hsh]
  rcases Nat.lt_or_ge i 8 with hi | hi
  · have h1 : 256 * b = 2 ^ i * (2 ^ (8 - i) * b) := by
      rw [← Nat.mul_assoc, ← Nat.pow_add, show i + (8 - i) = 8 by omega]
    have hev : 2 ^ (8 - i) * b = 2 * (2 ^ (7 - i) * b) := by
      rw [show 8 - i = 7 - i + 1 by omega, Nat.pow_succ', Nat.mul_assoc]
    have h2 : Nat.testBit (256 * b) i = false := by
      rw [Nat.testBit_to_div_mod, h1, Nat.mul_div_cancel_left _ (Nat.pos_pow_of_pos i (by norm_num))]
      simp [hev, Nat.mul_mod_right]
    have h3 : Nat.testBit (a + 256 * b) i = Nat.testBit a i := by
      rw [Nat.testBit_to_div_mod, Nat.testBit_to_div_mod, h1,
        Nat.add_mul_div_left _ _ (Nat.pos_pow_of_pos i (by norm_num)), hev,
        Nat.add_mul_mod_self_left]
    rw [h2, h3, Bool.or_false]
  · have h4 : Nat.testBit a i = false := by
      apply Nat.testBit_lt_two_pow
      calc a < 256 := ha
        _ = 2 ^ 8 := by norm_num
        _ ≤ 2 ^ i := Nat.pow_le_pow_right (by norm_num) hi
    have h5 : 2 ^ i = 256 * 2 ^ (i - 8) := by
      rw [show (256 : Nat) = 2 ^ 8 from by norm_num, ← Nat.pow_add, show 8 + (i - 8) = i by omega]
    have hdiv : (a + 256 * b) / 256 = b := by
      rw [Nat.add_mul_div_left _ _ (by norm_num : (0:Nat) < 256), Nat.div_eq_of_lt ha,
        Nat.zero_add]
    have h6 : Nat.testBit (a + 256 * b) i = Nat.testBit b (i - 8) := by
      rw [Nat.testBit_to_div_mod, Nat.testBit_to_div_mod, h5, ← Nat.div_div_eq_div_mul, hdiv]
    have h7 : Nat.testBit (256 * b) i = Nat.testBit b (i - 8) := by
      rw [Nat.testBit_to_div_mod, Nat.testBit_to_div_mod, h5, ← Nat.div_div_eq_div_mul,
        Nat.mul_div_cancel_left _ (by norm_num : (0:Nat) < 256)]
    rw [h4, h6, h7, Bool.false_or]

theorem getSector_valid (img : Image) (t s : Nat) (ht : t < 35) (hs : s < 16) :
    getSector img t s = .ok (sectorBytes img ((t * 16 + s) * 256)) := by
  rw [getSector, if_neg, if_neg]
  · have hcast : (((t : Int) * 16 + (s : Int)) * 256).toNat = (t * 16 + s) * 256 := by
      have h1 : ((t : Int) * 16 + (s : Int)) * 256 = (((t * 16 + s) * 256 : Nat) : Int) := by
        push_cast
        ring
      rw [h1, Int.toNat_natCast]
    rw [hcast]
  · simp only [SECTORS_PER_TRACK, not_or]
    constructor <;> omega
  · simp only [TRACKS, not_or]
    constructor <;> omega

theorem sectorBytes_length (img : Image) (off : Nat) : (sectorBytes img off).length = 256 := by
  simp [sectorBytes, SECTOR_SIZE]

theorem getSector_error (img : Image) (t s : Int) (e : PErr)
    (h : getSector img t s = .error e) : e = .invalidTrack ∨ e = .invalidSector := by
  rw [getSector] at h
  split at h
  · exact Or.inl (Except.error.inj h).symm
  · split at h
    · exact Or.inr (Except.error.inj h).symm
    · simp at h

theorem dosGo_no_invalidSize (img : Image) (fuel : Nat) :
    ∀ t s files, dosGo img fuel t s files ≠ some (.error .invalidSize) := by
  induction fuel with
  | zero =>
    intro t s files h
    cases t with
    | zero => simp [dosGo] at h
    | succ t => simp [dosGo] at h
  | succ n ih =>
    intro t s files h
    cases t with
    | zero => simp [dosGo] at h
    | succ t =>
      simp only [dosGo] at h
      cases hgs : getSector img (((t + 1 : Nat)) : Int) ((s : Nat) : Int) with
      | error e =>
        rw [hgs] at h
        dsimp only at h
        have he : e = PErr.invalidSize := Except.error.inj (Option.some.inj h)
        subst he
        rcases getSector_error img _ _ _ hgs with h1 | h1 <;> cases h1
      | ok sd =>
        rw [hgs] at h
        dsimp only at h
        by_cases h0 : sd.getD 1 0 = 0
        · rw [if_pos h0] at h
          simp at h
        · rw [if_neg h0] at h
          exact ih _ _ _ h
theorem dosParseSlot_name (sd : List Nat) (i : Nat) (k : String) (v : DosFile)
    (h : dosParseSlot sd i = some (k, v)) : k ≠ "" := by
  simp only [dosParseSlot] at h
  split at h
  · simp at h
  · split at h
    · simp at h
    · next hne =>
      rw [Option.some.injEq, Prod.mk.injEq] at h
      exact h.1 ▸ hne

theorem pyDictInsert_keys {α : Type} (P : String → Prop) (k : String) (v : α)
    (l : List (String × α)) (hl : ∀ p ∈ l, P p.1) (hk : P k) :
    ∀ p ∈ pyDictInsert k v l, P p.1 := by
  induction l with
  | nil =>
    intro p hp
    simp only [pyDictInsert, List.mem_singleton] at hp
    subst hp
    exact hk
  | cons q t ih =>
    obtain ⟨a, b⟩ := q
    intro p hp
    simp only [pyDictInsert] at hp
    by_cases ha : a = k
    · rw [if_pos ha] at hp
      rcases List.mem_cons.mp hp with h1 | h2
      · subst h1
        show P a
        rw [ha]
        exact hk
      · exact hl p (List.mem_cons_of_mem _ h2)
    · rw [if_neg ha] at hp
      rcases List.mem_cons.mp hp with h1 | h2
      · subst h1
        exact hl (a, b) (List.mem_cons_self _ _)
      · exact ih (fun q hq => hl q (List.mem_cons_of_mem _ hq)) p h2

theorem foldSlots_keys (sd : List Nat) (l : List Nat) :
    ∀ files : DosDir, (∀ p ∈ files, p.1 ≠ "") →
      ∀ p ∈ l.foldl
          (fun fs i =>
            match dosParseSlot sd i with
            | none => fs
            | some (k, v) => pyDictInsert k v fs)
          files,
        p.1 ≠ "" := by
  induction l with
  | nil => intro files hf; exact hf
  | cons i t ih =>
    intro files hf
    rw [List.foldl_cons]
    cases h : dosParseSlot sd i with
    | none =>
      simp only [h]
      exact ih files hf
    | some kv =>
      obtain ⟨k, v⟩ := kv
      simp only [h]
      exact ih _ (pyDictInsert_keys (fun x => x ≠ "") k v files hf (dosParseSlot_name sd i k v h))

theorem dosGo_keys (img : Image) (fuel : Nat) :
    ∀ t s files d, (∀ p ∈ files, p.1 ≠ "") →
      dosGo img fuel t s files = some (.ok d) → ∀ p ∈ d, p.1 ≠ "" := by
  induction fuel with
  | zero =>
    intro t s files d hf h
    cases t with
    | zero =>
      have hfd : files = d := Except.ok.inj (Option.some.inj h)
      exact hfd ▸ hf
    | succ t => simp [dosGo] at h
  | succ n ih =>
    intro t s files d hf h
    cases t with
    | zero =>
      have hfd : files = d := Except.ok.inj (Option.some.inj h)
      exact hfd ▸ hf
    | succ t =>
      simp only [dosGo] at h
      cases hgs : getSector img (((t + 1 : Nat)) : Int) ((s : Nat) : Int) with
      | error e =>
        rw [hgs] at h
        dsimp only at h
        simp at h
      | ok sd =>
        rw [hgs] at h
        dsimp only at h
        by_cases h0 : sd.getD 1 0 = 0
        · rw [if_pos h0] at h
          have hd : dosProcessSector sd files = d := Except.ok.inj (Option.some.inj h)
          exact hd ▸ foldSlots_keys sd (List.range 7) files hf
        · rw [if_neg h0] at h
          exact ih _ _ _ _ (foldSlots_keys sd (List.range 7) files hf) h
theorem readSectors_aux (img : Image) (secs : List (Nat × Nat)) :
    ∀ acc : List Nat, (∀ p ∈ secs, p.1 < 35 ∧ p.2 < 16) →
      ∃ bytes : List Nat,
        secs.foldl
          (fun (a : Except PErr (List Nat)) p =>
            match a with
            | Except.error e => Except.error e
            | Except.ok d =>
              match getSector img (p.1 : Nat) (p.2 : Nat) with
              | Except.error e => Except.error e
              | Except.ok sd => Except.ok (d ++ sd))
          (Except.ok acc) = Except.ok bytes ∧
        bytes.length = acc.length + 256 * secs.length := by
  induction secs with
  | nil =>
    intro acc _
    exact ⟨acc, rfl, by simp⟩
  | cons p t ih =>
    intro acc hv
    obtain ⟨hp1, hp2⟩ := hv p (List.mem_cons_self _ _)
    rw [List.foldl_cons]
    have hgs := getSector_valid img p.1 p.2 hp1 hp2
    dsimp only
    rw [hgs]
    obtain ⟨bytes, hb, hlen⟩ :=
      ih (acc ++ sectorBytes img ((p.1 * 16 + p.2) * 256))
        (fun q hq => hv q (List.mem_cons_of_mem _ hq))
    refine ⟨bytes, hb, ?_⟩
    rw [hlen]
    simp only [List.length_append, sectorBytes_length, List.length_cons]
    ring

theorem readSectors_ok (img : Image) (secs : List (Nat × Nat))
    (hv : ∀ p ∈ secs, p.1 < 35 ∧ p.2 < 16) :
    ∃ bytes, readSectors img secs = .ok bytes ∧ bytes.length = 256 * secs.length := by
  obtain ⟨bytes, hb, hlen⟩ := readSectors_aux img secs [] hv
  exact ⟨bytes, hb, by simpa using hlen⟩
/-- C1: the code has no cycle protection at all.  On an image whose catalog
next links revisit a visited sector, `_read_catalog` loops forever — for
every loop-iteration bound the fueled model fails to terminate and no
`CorruptCatalog` (or any other) error is raised; the same holds for
`_read_tslist` on a chain-sector cycle, where the spec expects
`CorruptChain`. -/
theorem c1_no_cycle_protection :
    (∀ fuel, dosCatalogFuel cycImg fuel = none) ∧
    (∀ fuel, dosTslistFuel cycImg2 fuel 1 0 = none) := by
  constructor
  · intro fuel
    induction fuel with
    | zero => rfl
    | succ n ih =>
      exact Eq.trans (rfl : dosCatalogFuel cycImg (n + 1) = dosCatalogFuel cycImg n) ih
  · intro fuel
    induction fuel with
    | zero => rfl
    | succ n ih =>
      exact Eq.trans (rfl : dosTslistFuel cycImg2 (n + 1) 1 0 = dosTslistFuel cycImg2 n 1 0) ih

/-- C2 counterexample: in `AppleDOS33Disk._read_catalog` an entry whose
first byte is 0xFF is NOT skipped: on `ffImg`, whose only catalog slot has
first byte 0xFF, the resulting directory contains that entry (with the
out-of-range chain track 255). -/
theorem c2_ff_not_skipped :
    ((ffSd.drop 11).take 35).getD 0 0 = 255 ∧
    dosCatalogFuel ffImg 1 = some (.ok [("A", ⟨"T", 255, 0, 1, 0⟩)]) :=
  ⟨rfl, rfl⟩

/-- C2 amended: in `AppleDOSFS._parse_catalog` (main.py) a slot whose first
byte is 0 or 0xFF contributes nothing, and on `ffImg` the whole main.py
catalog is empty; in `AppleDOS33Disk._read_catalog` (dos33fs.py) only a
first byte of 0 is skipped. -/
theorem c2_skip_amended :
    (∀ (sd : List Nat) (i t0 : Nat),
      pyIndex ((sd.drop (11 + i * 35)).take 35) 0 = .ok t0 →
      t0 = 0 ∨ t0 = 255 → mainParseSlot sd i = .ok none) ∧
    (∀ (sd : List Nat) (i : Nat),
      ((sd.drop (11 + i * 35)).take 35).getD 0 0 = 0 → dosParseSlot sd i = none) ∧
    mainCatalogFuel ⟨143360, ffImg⟩ 2 = some (.ok []) := by
  refine ⟨?_, ?_, rfl⟩
  · intro sd i t0 h ht
    simp only [mainParseSlot, h]
    rw [if_pos ht]
  · intro sd i h
    simp only [dosParseSlot]
    rw [if_pos h]

/-- C2 amended witness: slot 0 of the `ffImg` catalog sector has first byte
0xFF and parses to nothing in main.py; slot 1 has first byte 0 and parses
to nothing in dos33fs.py. -/
theorem c2_skip_amended_witness :
    mainParseSlot ffSd 0 = .ok none ∧ dosParseSlot ffSd 1 = none :=
  ⟨c2_skip_amended.1 ffSd 0 255 rfl (Or.inr rfl), c2_skip_amended.2.1 ffSd 1 rfl⟩

/-- C3 counterexample: `AppleDOS33Disk`'s name decoding does not drop null
bytes.  The spec's own example field — "HELLO" with high bits set, 0xA0
padding, then a zero byte — decodes to "HELLO" followed by 24 spaces and a
NUL character, not to "HELLO". -/
theorem c3_nulls_kept :
    dosDecodeName helloRaw ≠ "HELLO" ∧
    dosDecodeName helloRaw = "HELLO" ++ String.mk (List.replicate 24 ' ') ++ "\x00" := by
  refine ⟨?_, rfl⟩
  decide

/-- C3 amended: `AppleDOSFS._parse_catalog` (main.py) drops zero bytes
before masking and stripping, so the example decodes to exactly "HELLO"
there; the two decoders agree whenever the raw field contains no zero
byte. -/
theorem c3_decode_amended :
    (∀ raw : List Nat, (0 : Nat) ∉ raw → dosDecodeName raw = mainDecodeName raw) ∧
    mainDecodeName helloRaw = "HELLO" := by
  refine ⟨?_, rfl⟩
  intro raw h
  have hf : (raw.filter fun b => b ≠ 0) = raw :=
    List.filter_eq_self.mpr fun a ha => decide_eq_true fun he => h (he ▸ ha)
  rw [dosDecodeName, mainDecodeName, hf]

/-- C3 amended witness: on a field with no zero bytes the two decoders
agree. -/
theorem c3_decode_amended_witness :
    (0 : Nat) ∉ [200, 197] ∧ dosDecodeName [200, 197] = mainDecodeName [200, 197] :=
  ⟨by decide, c3_decode_amended.1 [200, 197] (by decide)⟩

/-- C4 counterexample: `AppleDOS33Disk._read_catalog` stores the raw type
byte without masking: on `img4`, whose single entry has type byte 0x84
(locked binary), the stored type code is 132, not 132 & 0x7F = 4. -/
theorem c4_type_unmasked :
    dosCatalogFuel img4 1 = some (.ok [("A", ⟨"?", 1, 0, 258, 132⟩)]) ∧
    (132 : Nat) ≠ 132 % 128 :=
  ⟨rfl, by decide⟩

theorem pyIndex_getD (l : List Nat) (i v : Nat) (h : pyIndex l i = .ok v) :
    l.getD i 0 = v := by
  rw [pyIndex] at h
  split at h
  · next hlt =>
    rw [List.getD_eq_getElem l 0 hlt]
    exact Except.ok.inj h
  · simp at h

theorem pyUnpackH_ok (sl : List Nat) (v : Nat) (h : pyUnpackH sl = .ok v) :
    v = sl.getD 0 0 + 256 * sl.getD 1 0 := by
  rw [pyUnpackH] at h
  split at h
  · exact (Except.ok.inj h).symm
  · simp at h

theorem getD_take_drop (l : List Nat) (n j m : Nat) (hj : j < m) :
    ((l.drop n).take m).getD j 0 = l.getD (n + j) 0 := by
  simp [List.getD_eq_getElem?_getD, List.getElem?_take, hj, List.getElem?_drop]

/-- C4 amended: main.py masks the type byte to its low 7 bits and decodes
the sector count as the little-endian 16-bit value of entry bytes 33-34;
dos33fs.py stores the raw unmasked type byte, and its sector count
`entry[33] | entry[34] << 8` equals the little-endian value whenever byte
33 is an actual byte (< 256). -/
theorem c4_fields_amended :
    (∀ (sd : List Nat) (i : Nat) (name : String) (mf : MainFile),
      mainParseSlot sd i = .ok (some (name, mf)) →
      mf.ftype = ((sd.drop (11 + i * 35)).take 35).getD 2 0 % 128 ∧
      mf.lenSectors =
        ((sd.drop (11 + i * 35)).take 35).getD 33 0 +
          256 * ((sd.drop (11 + i * 35)).take 35).getD 34 0) ∧
    (∀ (sd : List Nat) (i : Nat) (name : String) (df : DosFile),
      dosParseSlot sd i = some (name, df) →
      df.typeCode = ((sd.drop (11 + i * 35)).take 35).getD 2 0 ∧
      (((sd.drop (11 + i * 35)).take 35).getD 33 0 < 256 →
        df.length =
          ((sd.drop (11 + i * 35)).take 35).getD 33 0 +
            256 * ((sd.drop (11 + i * 35)).take 35).getD 34 0)) := by
  constructor
  · intro sd i name mf h
    simp only [mainParseSlot] at h
    split at h
    · simp at h
    · next t0 heq0 =>
      split at h
      · simp at h
      · split at h
        · simp at h
        · next ft heq2 =>
          split at h
          · simp at h
          · next fl hequ =>
            split at h
            · simp at h
            · next s1 heq1 =>
              rw [Except.ok.injEq, Option.some.injEq, Prod.mk.injEq] at h
              obtain ⟨-, hmf⟩ := h
              subst hmf
              constructor
              · rw [pyIndex_getD _ _ _ heq2]
              · have hu := pyUnpackH_ok _ _ hequ
                rw [getD_take_drop _ 33 0 2 (by omega), getD_take_drop _ 33 1 2 (by omega)] at hu
                simpa using hu
  · intro sd i name df h
    simp only [dosParseSlot] at h
    split at h
    · simp at h
    · split at h
      · simp at h
      · rw [Option.some.injEq, Prod.mk.injEq] at h
        obtain ⟨-, hdf⟩ := h
        subst hdf
        exact ⟨rfl, fun hb => byte_lor _ _ hb⟩

/-- C4 amended witness: slot 0 of the `imgH` catalog sector parses in
main.py to type 4 and sector count 3, matching the masked type byte and the
little-endian count bytes of the raw entry. -/
theorem c4_fields_amended_witness :
    (MainFile.ftype ⟨4, 3, 1, 2⟩ = ((sdH.drop (11 + 0 * 35)).take 35).getD 2 0 % 128) ∧
    (MainFile.lenSectors ⟨4, 3, 1, 2⟩ =
      ((sdH.drop (11 + 0 * 35)).take 35).getD 33 0 +
        256 * ((sdH.drop (11 + 0 * 35)).take 35).getD 34 0) :=
  c4_fields_amended.1 sdH 0 "HELLO" ⟨4, 3, 1, 2⟩ rfl
/-- C5 counterexample: on `imgA` the volume descriptor records the in-range
catalog address (17, 14), whose catalog holds the file "A" — main.py finds
it, but `AppleDOS33Disk._read_catalog` returns an empty directory because
it always starts at the fixed address (17, 15) and never reads the volume
descriptor at all. -/
theorem c5_vtoc_ignored :
    imgA 69633 = 17 ∧ imgA 69634 = 14 ∧
    mainCatalogFuel ⟨143360, imgA⟩ 2 = some (.ok [("A", ⟨4, 1, 1, 1⟩)]) ∧
    dosCatalogFuel imgA 1 = some (.ok []) :=
  ⟨rfl, rfl, rfl, rfl⟩

/-- C5 amended: dos33fs.py unconditionally starts catalog traversal at the
fixed default (17, 15); main.py unconditionally starts at the recorded
address with no range check and no fallback — on `imgB`, whose volume
descriptor records the out-of-range address (200, 0), main.py fails with
IndexError while dos33fs.py reads the catalog at (17, 15). -/
theorem c5_start_amended :
    imgB 69633 = 200 ∧
    mainCatalogFuel ⟨143360, imgB⟩ 2 = some (.error .indexError) ∧
    dosCatalogFuel imgB 1 = some (.ok [("C", ⟨"B", 1, 1, 1, 4⟩)]) :=
  ⟨rfl, rfl, rfl⟩

/-- C6 counterexample: `AppleDOSFS._read_sector` performs no address
validation: at the out-of-range address (35, 0) on a full-size image it
returns the empty byte string rather than failing with InvalidAddress. -/
theorem c6_no_main_validation :
    mainRead bf0 35 0 = [] ∧ (mainRead bf0 35 0).length ≠ 256 :=
  ⟨rfl, by decide⟩

/-- C6 amended: `AppleDOS33Disk._get_sector` is a pure function that
returns exactly 256 bytes for every in-range address and raises ValueError
for every out-of-range one (including negatives, never touching the
buffer); `AppleDOSFS._read_sector` never validates and returns the empty
list whenever the computed offset is at or past the end of the file. -/
theorem c6_read_amended :
    (∀ (img : Image) (t s : Nat), t < 35 → s < 16 →
      ∃ l, getSector img t s = .ok l ∧ l.length = 256) ∧
    (∀ (img : Image) (t s : Int), t < 0 ∨ (35 : Int) ≤ t ∨ s < 0 ∨ (16 : Int) ≤ s →
      ∃ e, getSector img t s = .error e ∧
        (e = PErr.invalidTrack ∨ e = PErr.invalidSector)) ∧
    (∀ (bf : ByteFile) (t s : Nat), bf.len ≤ (t * 16 + s) * 256 →
      mainRead bf t s = []) := by
  refine ⟨?_, ?_, ?_⟩
  · intro img t s ht hs
    exact ⟨_, getSector_valid img t s ht hs, sectorBytes_length img _⟩
  · intro img t s h
    by_cases ht : t < 0 ∨ (TRACKS : Int) ≤ t
    · exact ⟨.invalidTrack, by rw [getSector, if_pos ht], Or.inl rfl⟩
    · have hs : s < 0 ∨ (SECTORS_PER_TRACK : Int) ≤ s := by
        simp only [TRACKS] at ht
        simp only [SECTORS_PER_TRACK]
        omega
      exact ⟨.invalidSector, by rw [getSector, if_neg ht, if_pos hs], Or.inr rfl⟩
  · intro bf t s h
    simp [mainRead, Nat.sub_eq_zero_of_le h]

/-- C6 amended witness: the in-range read at (3, 5) on the all-zero image
returns a 256-byte sector. -/
theorem c6_read_amended_witness :
    ∃ l, getSector img0 3 5 = .ok l ∧ l.length = 256 :=
  c6_read_amended.1 img0 3 5 (by omega) (by omega)

/-- C7 counterexample: an image of exactly 143,360 bytes does not guarantee
successful construction: `badLink` has the correct size, yet
`AppleDOS33Disk.__init__` fails with the `_get_sector` ValueError (invalid
track) because the catalog sector's next link points to track 200. -/
theorem c7_size_not_sufficient :
    badLink.len = SECTOR_SIZE * SECTORS_PER_TRACK * TRACKS ∧
    dosInit badLink 2 = some (.error .invalidTrack) :=
  ⟨rfl, rfl⟩

/-- C7 amended: construction fails with the invalid-size ValueError exactly
when the loaded image is not 143,360 bytes; a 143,360-byte image always
passes the size check, though catalog traversal can still fail afterwards
(or not terminate). -/
theorem c7_size_amended (bf : ByteFile) (fuel : Nat) :
    dosInit bf fuel = some (.error .invalidSize) ↔
      bf.len ≠ SECTOR_SIZE * SECTORS_PER_TRACK * TRACKS := by
  constructor
  · intro h
    by_contra hlen
    rw [dosInit, if_neg (by simp [hlen])] at h
    exact dosGo_no_invalidSize bf.byte fuel 17 15 [] h
  · intro h
    rw [dosInit, if_pos h]

/-- C7 amended witness: the 100-byte image fails construction with the
invalid-size error. -/
theorem c7_size_amended_witness :
    dosInit bfShort 1 = some (.error .invalidSize) :=
  (c7_size_amended bfShort 1).mpr (by decide)

/-- C8: the directory is a Python dict keyed by decoded name, so when two
or more valid entries share a name the one encountered later in traversal
order (sector by sector along the next links, slots 0 through 6 within a
sector) wins: looking a name up in the finished directory yields the
metadata of the LAST entry with that name in the traversal-ordered entry
sequence. -/
theorem c8_last_wins (img : Image) (fuel : Nat) (d : DosDir)
    (l : List (String × DosFile)) (name : String)
    (hd : dosCatalogFuel img fuel = some (.ok d))
    (hl : dosEntriesFuel img fuel = some (.ok l)) :
    pyLookup name d = ((l.filter fun p => p.1 = name).getLast?).map Prod.snd := by
  have h := dosGo_eq_goE img fuel 17 15 []
  rw [dosCatalogFuel] at hd
  rw [dosEntriesFuel] at hl
  rw [hd, hl] at h
  simp only [Option.map_some'] at h
  have hde : d = foldInserts [] l := by
    have := Option.some.inj h
    simpa [Except.map] using this
  subst hde
  rw [pyLookup_foldInserts]
  cases hgl : (l.filter fun p => p.1 = name).getLast? with
  | none => rfl
  | some p => rfl

/-- C8 witness: on `imgDup`, whose catalog sector holds two valid entries
both named "A" (slot 0 with chain track 1 and count 1, slot 1 with chain
track 2 and count 2), the directory maps "A" to the slot-1 metadata. -/
theorem c8_last_wins_witness :
    pyLookup "A" [("A", (⟨"B", 2, 0, 2, 4⟩ : DosFile))] = some ⟨"B", 2, 0, 2, 4⟩ :=
  (c8_last_wins imgDup 1 [("A", ⟨"B", 2, 0, 2, 4⟩)]
      [("A", ⟨"B", 1, 0, 1, 4⟩), ("A", ⟨"B", 2, 0, 2, 4⟩)] "A" rfl rfl).trans (by rfl)

/-- C9: every key of the directory built by `AppleDOS33Disk._read_catalog`
is a non-empty string — an entry whose decoded name is empty is skipped by
the `if not filename: continue` guard, and the dict is built once at
construction and never mutated afterwards. -/
theorem c9_nonempty_keys (img : Image) (fuel : Nat) (d : DosDir)
    (h : dosCatalogFuel img fuel = some (.ok d)) : ∀ p ∈ d, p.1 ≠ "" :=
  dosGo_keys img fuel 17 15 [] d (by simp) h

/-- C9 witness: the catalog of `imgH` completes with the single entry
"HELLO", whose key is non-empty. -/
theorem c9_nonempty_keys_witness : ("HELLO" : String) ≠ "" :=
  c9_nonempty_keys imgH 1 [("HELLO", ⟨"B", 1, 2, 3, 4⟩)] rfl
    ("HELLO", ⟨"B", 1, 2, 3, 4⟩) (List.mem_singleton.mpr rfl)

/-- C10 counterexample: on `imgC` the chain traversal for file "A"
completes and collects the single pair (200, 0), yet `read_file` returns no
byte sequence at all — it raises the `_get_sector` ValueError because the
collected data address is out of range. -/
theorem c10_invalid_pair :
    dosTslistFuel imgC 3 1 0 = some (.ok [(200, 0)]) ∧
    dosReadFile imgC 3 "A" = some (.error .invalidTrack) :=
  ⟨rfl, rfl⟩

/-- C10 amended: when the chain traversal completes AND every collected
(track, sector) pair is in range, `read_file` returns exactly 256 bytes per
collected pair, so the assembled length is always a multiple of the sector
size; an out-of-range collected pair instead aborts the read with the
`_get_sector` ValueError. -/
theorem c10_length_amended (img : Image) (fuel : Nat) (name : String)
    (d : DosDir) (info : DosFile) (pairs : List (Nat × Nat))
    (hd : dosCatalogFuel img fuel = some (.ok d))
    (hlook : pyLookup name d = some info)
    (hts : dosTslistFuel img fuel info.track info.sector = some (.ok pairs))
    (hvalid : ∀ p ∈ pairs, p.1 < 35 ∧ p.2 < 16) :
    ∃ bytes, dosReadFile img fuel name = some (.ok bytes) ∧
      bytes.length = 256 * pairs.length := by
  obtain ⟨bytes, hb, hlen⟩ := readSectors_ok img pairs hvalid
  refine ⟨bytes, ?_, hlen⟩
  rw [dosReadFile, hd]
  simp only [hlook, hts, hb]

/-- C10 amended witness: on `imgD` the file "A" has a completing chain with
the single in-range pair (2, 3), and `read_file` returns 256 bytes. -/
theorem c10_length_amended_witness :
    ∃ bytes, dosReadFile imgD 3 "A" = some (.ok bytes) ∧
      bytes.length = 256 * ([((2 : Nat), (3 : Nat))].length) :=
  c10_length_amended imgD 3 "A" [("A", ⟨"B", 1, 0, 1, 4⟩)] ⟨"B", 1, 0, 1, 4⟩
    [(2, 3)] rfl rfl rfl (by decide)
